import Mathlib

/-!
Shallow embedding of the tsmodule build pipeline
(`src/commands/build/index.ts`).

Paths and file contents are modelled as lists of characters (`Str`).
The `build` function is modelled as a pure function from its argument
record (`BuildArgs`, mirroring the TS defaults) and an ambient world
(`World`: glob results, environment variables, package metadata) to the
ordered list of filesystem effects it performs (`Effect`) together with
its outcome (`BuildResult`).  Logging and spinner output are not
observable effects and are elided; option plumbing that no observable
behaviour depends on (banner text, plugin identity) is likewise elided.
-/

abbrev Str := List Char

/-- JavaScript truthiness of an optional string argument: `undefined`
and the empty string are falsy, every other string is truthy. -/
def isTruthy : Option Str → Bool
  | none => false
  | some s => !s.isEmpty

/-- Boolean suffix test on paths, mirroring `String.prototype.endsWith`
and suffix-anchored extension regexes. -/
def hasSuffix (s p : Str) : Bool := decide (s <:+ p)

/-- Segment of `p` strictly after the last occurrence of `t`, if `t`
occurs in `p` at all. -/
def afterLast (t : Char) : Str → Option Str
  | [] => none
  | c :: cs =>
    match afterLast t cs with
    | some r => some r
    | none => if c = t then some cs else none

/-- Basename of a path: the segment after the last slash (the whole
path when there is no slash), as in Node's `path.basename`. -/
def basenameOf (p : Str) : Str := (afterLast '/' p).getD p

/-- Node's `path.extname`: the substring of the basename from its last
dot, where a dot in leading position does not count (`.bashrc` has no
extension).  In particular `extname "types.d.ts" = ".ts"`. -/
def extFromTail : Option Str → Str
  | some r => '.' :: r
  | none => []

/-- Extension of a basename: from the last dot of its tail (so a dot
in leading position never counts). -/
def extFromBase : Str → Str
  | [] => []
  | _ :: rest => extFromTail (afterLast '.' rest)

/-- Continuation of `path.extname`: applied to the basename. -/
def extname (p : Str) : Str := extFromBase (basenameOf p)

/-- POSIX absolute-path test (`path.isAbsolute`). -/
def isAbsolute : Str → Bool
  | '/' :: _ => true
  | _ => false

/-- First-occurrence substring replacement, as in JavaScript
`String.prototype.replace` with a string pattern. -/
def replaceFirst (pat repl : Str) : Str → Str
  | [] => []
  | c :: cs =>
    if pat.isPrefixOf (c :: cs) then repl ++ (c :: cs).drop pat.length
    else c :: replaceFirst pat repl cs

/-- Modelled from the spec: extension predicates of `utils/resolve`
(that module is not under `src/`).  Per §4.1, declaration and code
files are detected by extension; `isTs` accepts TypeScript dialect
extensions. -/
def isTs (p : Str) : Bool :=
  hasSuffix ".ts".data p || hasSuffix ".tsx".data p ||
  hasSuffix ".mts".data p || hasSuffix ".cts".data p

/-- Modelled from the spec: templated-UI dialect detected by extension
(`utils/resolve`, not under `src/`). -/
def isTsxOrJsx (p : Str) : Bool :=
  hasSuffix ".tsx".data p || hasSuffix ".jsx".data p

/-- Modelled from the spec: code-extension test of `utils/resolve`
(not under `src/`); everything else is a non-source asset. -/
def isJsOrTs (p : Str) : Bool :=
  isTs p || hasSuffix ".js".data p || hasSuffix ".jsx".data p ||
  hasSuffix ".mjs".data p || hasSuffix ".cjs".data p

/-- Arguments of `build` with their TypeScript default values
(`BuildArgs`, lines 64-81 of `src/commands/build/index.ts`). -/
structure BuildArgs where
  input : Str := "src/**/*".data
  styles : Str := "src/components/index.css".data
  format : Str := "esm".data
  dev : Bool := false
  bundle : Bool := false
  binary : Bool := false
  standalone : Bool := false
  clear : Bool := true
  runtimeOnly : Bool := false
  jsOnly : Bool := false
  noWrite : Bool := false
  stdin : Option Str := none
  stdinFile : Option Str := none

/-- Ambient state read by one build: the working directory, the glob
results, the relevant environment variable, the in-memory transform
result, and package metadata.  `now` feeds the temp-config file name
(`Date.now()`), `pkgTypeMismatch` records whether the `dist/`
package descriptor needs its `type` field patched. -/
structure World where
  cwd : Str
  distTopFiles : List Str
  globFiles : List Str
  transform : Str → Str
  noRewrites : Option Str
  stylesExist : Bool
  pkgStyle : Option Str
  cssFiles : List Str
  pkgTypeMismatch : Bool
  now : Nat

/-- Filesystem/process effects of one build, in program order.
Directory creation for asset copies is folded into the copy effect. -/
inductive Effect where
  | setNodeEnv (value : Str)
  | unlink (path : Str)
  | writeFile (path : Str)
  | rmFile (path : Str)
  | rmTree (path : Str)
  | esbuildStdin (file : Str) (splitting : Bool)
  | esbuildTsx (entry : Str) (splitting : Bool)
  | esbuildBatch (entryPoints : List Str) (splitting : Bool)
  | copyFile (src dst : Str)
  | normalizeSpecs (path : Str)
  | patchPkgType (wrote : Bool)
  | buildCss (entry out : Str)
  | buildBinaries
  | emitDeclarations (fileCount : Nat)
  deriving DecidableEq

/-- Outcome of one build: process termination with an exit code
(`process.exit`), an early return carrying compiled text (the
write-suppressed literal path), or ordinary completion. -/
inductive BuildResult where
  | exited (code : Nat)
  | code (text : Str)
  | done
  deriving DecidableEq

/-- Source directory resolved against the working directory
(`getWorkingDirs`). -/
def srcDirOf (w : World) : Str := w.cwd ++ "/src".data

/-- Output directory resolved against the working directory
(`getWorkingDirs`). -/
def outDirOf (w : World) : Str := w.cwd ++ "/dist".data

/-- Temp tsconfig path `resolve(tmpdir(), "tsconfig.<now>.json")`
(line 158), with `tmpdir()` modelled as `/tmp`. -/
def tempCopyPath (now : Nat) : Str :=
  "/tmp/tsconfig.".data ++ (Nat.repr now).data ++ ".json".data

/-- Modelled from the spec: canonical-extension substitution used when
computing destinations (the `isTs`/`isTsxOrJsx` regex replaces of
lines 250-251; the regexes live in `utils/resolve`, not under
`src/`). -/
def replaceExtToJs (p : Str) : Str :=
  if hasSuffix ".tsx".data p then p.take (p.length - 4) ++ ".js".data
  else if hasSuffix ".ts".data p then p.take (p.length - 3) ++ ".js".data
  else if hasSuffix ".jsx".data p then p.take (p.length - 4) ++ ".js".data
  else p

/-- Destination of a single absolute input file: root-segment
substitution plus canonical extension (lines 247-251). -/
def computeOutfile (a : BuildArgs) (w : World) : Str :=
  replaceExtToJs (replaceFirst (srcDirOf w) (outDirOf w) a.input)

/-- Leading `src/` (optionally `./src/`) rewritten to `dist/`, the
`^(\.\/)?src\//` replace of line 351. -/
def replaceSrcRootWithDist (p : Str) : Str :=
  match p with
  | '.' :: '/' :: 's' :: 'r' :: 'c' :: '/' :: rest => "dist/".data ++ rest
  | 's' :: 'r' :: 'c' :: '/' :: rest => "dist/".data ++ rest
  | _ => p

/-- Argument handed to the specifier normalizer (lines 348-359):
the input pattern with roots and extension substituted, suffixed with
`.js` when not already so suffixed. -/
def emittedJsPath (a : BuildArgs) (w : World) : Str :=
  let e := replaceExtToJs (replaceSrcRootWithDist
    (replaceFirst (srcDirOf w) (outDirOf w) a.input))
  if hasSuffix ".js".data e then e else e ++ ".js".data

/-- Modelled from the spec: destination of a copied asset, by root
segment substitution (`getEmittedFile` of `utils/cwd`, not under
`src/`). -/
def getEmittedFile (w : World) (f : Str) : Str :=
  replaceFirst (srcDirOf w) (outDirOf w) f

/-- Chunk-splitting flag of the esbuild options (line 166):
`!standalone && !stdin && format === "esm" && bundle`, where `bundle`
has already absorbed `standalone` (lines 89-91). -/
def splittingOf (a : BuildArgs) : Bool :=
  !a.standalone && !(isTruthy a.stdin) && (a.format == "esm".data) &&
  (a.bundle || a.standalone)

/-- Discovered build files (lines 233-245): the glob result with
`extname ≠ ".d.ts"` filtered out (a vacuous filter, since `extname`
never yields a two-dot extension), resolved to themselves, plus the
raw input pushed when an absolute input matched nothing. -/
def allFilesOf (a : BuildArgs) (w : World) : List Str :=
  if isAbsolute a.input &&
      (w.globFiles.filter (fun f => !(extname f == ".d.ts".data))).isEmpty
  then [a.input]
  else w.globFiles.filter (fun f => !(extname f == ".d.ts".data))

/-- TSX/JSX inputs handed one-by-one to esbuild (lines 263-268). -/
def compilableTsxFilesOf (a : BuildArgs) (w : World) : List Str :=
  ((allFilesOf a w).filter (fun f => isTsxOrJsx f)).filter
    (fun f => !hasSuffix ".d.ts".data f)

/-- Entry points of the batched TS/JS esbuild invocation
(lines 298-307). -/
def batchEntriesOf (a : BuildArgs) (w : World) : List Str :=
  (((allFilesOf a w).filter (fun f => isTs f)).filter
    (fun f => !isTsxOrJsx f)).filter (fun f => !hasSuffix ".d.ts".data f)

/-- Non-source assets copied to the output tree (line 325). -/
def nonTsJsInputOf (a : BuildArgs) (w : World) : List Str :=
  (allFilesOf a w).filter (fun f => !isJsOrTs f)

/-- Output-tree invalidation (lines 239-258): one computed destination
removed for an absolute input, the whole output directory removed
recursively otherwise. -/
def clearStage (a : BuildArgs) (w : World) : List Effect :=
  if isAbsolute a.input then [Effect.rmFile (computeOutfile a w)]
  else [Effect.rmTree (outDirOf w)]

/-- Optional stages after the runtimeOnly gate (lines 387-466): the
style bundle and per-asset style passes, the binary packager, and the
declaration emitter whose report counts `allFiles`. -/
def postEffects (a : BuildArgs) (w : World) (bundle : Bool) : List Effect :=
  (if !a.jsOnly then
    (if w.stylesExist then
      Effect.buildCss a.styles (w.pkgStyle.getD "./dist/bundle.css".data) ::
      (if bundle then w.cssFiles.map (fun f => Effect.buildCss f f) else [])
     else [])
    ++ (if a.binary then [Effect.buildBinaries] else [])
   else [])
  ++ [Effect.emitDeclarations (allFilesOf a w).length]

/-- Main pipeline after the stdin block (lines 227-469): invalidation,
per-file TSX compiles, the batched TS/JS compile, temp-config
deletion, asset copies, conditional specifier normalization, the
package-type patch, and — unless runtimeOnly — the optional stages. -/
def mainEffects (a : BuildArgs) (w : World)
    (bundle runtimeOnly splitting : Bool) : List Effect :=
  clearStage a w
  ++ (compilableTsxFilesOf a w).map (fun f => Effect.esbuildTsx f splitting)
  ++ [Effect.esbuildBatch (batchEntriesOf a w) splitting]
  ++ [Effect.rmFile (tempCopyPath w.now)]
  ++ (nonTsJsInputOf a w).map (fun f => Effect.copyFile f (getEmittedFile w f))
  ++ (if isTruthy w.noRewrites then []
      else [Effect.normalizeSpecs (emittedJsPath a w)])
  ++ [Effect.patchPkgType w.pkgTypeMismatch]
  ++ (if runtimeOnly then [] else postEffects a w bundle)

/-- Effects preceding the stdin block on every path: the `NODE_ENV`
assignment (line 82), the clear-flag unlinks of the top-level output
files (lines 96-99), and the temp-config write (lines 158-159). -/
def preEffects (a : BuildArgs) (w : World) : List Effect :=
  Effect.setNodeEnv
    (if a.dev then "development".data else "production".data)
  :: (if a.clear then w.distTopFiles.map Effect.unlink else [])
  ++ [Effect.writeFile (tempCopyPath w.now)]

/-- The build operation (lines 64-470), as its ordered effect trace
and outcome.  Flag normalization (dev forces runtimeOnly, standalone
forces bundle) happens at entry, then the stdin block either
terminates the process (missing companion flag), returns compiled text
(write suppression), performs the single-buffer esbuild, or — when
stdin is absent or falsy — falls through to the main pipeline. -/
def build (a : BuildArgs) (w : World) : List Effect × BuildResult :=
  let runtimeOnly := a.runtimeOnly || a.dev
  let bundle := a.bundle || a.standalone
  let splitting := splittingOf a
  let pre := preEffects a w
  match a.stdin with
  | some sCode =>
    if sCode.isEmpty then
      (pre ++ mainEffects a w bundle runtimeOnly splitting, BuildResult.done)
    else if isTruthy a.stdinFile = false then
      (pre, BuildResult.exited 1)
    else if a.noWrite then
      (pre, BuildResult.code (w.transform sCode))
    else
      (pre ++ [Effect.esbuildStdin (a.stdinFile.getD []) splitting],
       BuildResult.done)
  | none =>
    (pre ++ mainEffects a w bundle runtimeOnly splitting, BuildResult.done)

/-- Effects that write into the output tree (compiles, asset copies,
style bundles, metadata writes); clear unlinks, invalidation deletes
and the temp-config write are not output writes. -/
def isOutputWrite : Effect → Bool
  | Effect.esbuildStdin _ _ => true
  | Effect.esbuildTsx _ _ => true
  | Effect.esbuildBatch _ _ => true
  | Effect.copyFile _ _ => true
  | Effect.buildCss _ _ => true
  | Effect.buildBinaries => true
  | Effect.patchPkgType wrote => wrote
  | _ => false

/-- Modelled from the spec: the view of the output tree consulted by
the Specifier Normalizer (§4.3) — whether a candidate compiled file
exists, and whether a specifier names an existing directory holding an
index file.  The normalizer's source (`commands/normalize`) is not
under `src/`. -/
structure OutView where
  fileExists : Str → Bool
  dirWithIndex : Str → Bool

/-- Relative-specifier test: the specifier starts with `./` or `../`;
bare package specifiers fail it. -/
def isRelativeSpec (s : Str) : Bool :=
  decide ("./".data <+: s) || decide ("../".data <+: s)

/-- Modelled from the spec (§4.3): rewrite of one import/export
specifier.  Bare package specifiers are untouched; a relative
specifier already carrying the canonical compiled extension is
resolvable and untouched; a directory target gains `/index` plus the
extension; a file target gains the extension; an unresolvable
specifier is left unmodified (surfaced as a warning only). -/
def normalizeSpecifier (v : OutView) (s : Str) : Str :=
  if !isRelativeSpec s then s
  else if hasSuffix ".js".data s then s
  else if v.dirWithIndex s then s ++ "/index.js".data
  else if v.fileExists (s ++ ".js".data) then s ++ ".js".data
  else s

/-- Modelled from the spec: an emitted file as alternating literal
text segments and specifier occurrences inside import/export clauses;
the normalizer rewrites only the specifier occurrences (§4.3). -/
inductive Seg where
  | text (chunk : Str)
  | spec (s : Str)
  deriving DecidableEq

/-- Modelled from the spec: whole-file specifier normalization — every
specifier occurrence rewritten, all literal text preserved. -/
def normalizeEmitted (v : OutView) (file : List Seg) : List Seg :=
  file.map fun seg =>
    match seg with
    | Seg.text c => Seg.text c
    | Seg.spec s => Seg.spec (normalizeSpecifier v s)

/-- Bytes of an emitted file: concatenation of its segments. -/
def renderEmitted (file : List Seg) : Str :=
  file.flatMap fun seg =>
    match seg with
    | Seg.text c => c
    | Seg.spec s => s

/-- Concrete sample world used by the closed evaluation theorems. -/
def sampleWorld : World where
  cwd := "/proj".data
  distTopFiles := ["dist/stale.js".data]
  globFiles :=
    ["src/index.ts".data, "src/types.d.ts".data,
     "src/App.tsx".data, "src/logo.png".data]
  transform := fun s => s
  noRewrites := none
  stylesExist := false
  pkgStyle := none
  cssFiles := []
  pkgTypeMismatch := true
  now := 7

/-- Default build arguments (every TypeScript default). -/
def defaultArgs : BuildArgs := {}

/-- Literal (stdin) build with a companion file name and write
suppression. -/
def stdinNoWriteArgs : BuildArgs :=
  { stdin := some "const x: number = 1;".data,
    stdinFile := some "src/in.ts".data,
    noWrite := true }

/-- Literal (stdin) build missing the required companion file name. -/
def stdinNoFileArgs : BuildArgs :=
  { stdin := some "const x: number = 1;".data }

/-- Single-file build of one absolute path. -/
def absInputArgs : BuildArgs :=
  { input := "/proj/src/a.ts".data }

/-- Effects of the optional auxiliary stages skipped under
runtimeOnly: style bundling, binary packaging, declaration
emission. -/
def isAuxStage : Effect → Bool
  | Effect.buildCss _ _ => true
  | Effect.buildBinaries => true
  | Effect.emitDeclarations _ => true
  | _ => false

theorem mem_ite_list {α : Type} (x : α) (c : Prop) [Decidable c]
    (l1 l2 : List α) :
    (x ∈ if c then l1 else l2) ↔ (c ∧ x ∈ l1) ∨ (¬c ∧ x ∈ l2) := by
  split <;> simp [*]

theorem preEffects_no_output_write (a : BuildArgs) (w : World) :
    ∀ e ∈ preEffects a w, isOutputWrite e = false := by
  intro e he
  unfold preEffects at he
  rcases List.mem_cons.mp he with h | h
  · subst h; rfl
  rcases List.mem_append.mp h with h | h
  · split at h
    · rcases List.mem_map.mp h with ⟨f, _, rfl⟩; rfl
    · simp at h
  · simp at h; subst h; rfl

/-- C1 (amended): a literal (stdin) build with a companion file name
and write suppression returns the compiled text and performs no
output-tree write; its only filesystem effects are the clear-flag
unlinks (when `clear` is set) and the temp-config write. -/
theorem c1_literal_noWrite_effects (a : BuildArgs) (w : World) (s : Str)
    (hs : a.stdin = some s) (hne : s.isEmpty = false)
    (hf : isTruthy a.stdinFile = true) (hw : a.noWrite = true) :
    (build a w).2 = BuildResult.code (w.transform s) ∧
    (build a w).1 = preEffects a w ∧
    ∀ e ∈ (build a w).1, isOutputWrite e = false := by
  have hb : build a w = (preEffects a w, BuildResult.code (w.transform s)) := by
    unfold build
    rw [hs]
    simp [hne, hf, hw]
  refine ⟨by rw [hb], by rw [hb], ?_⟩
  rw [hb]
  exact preEffects_no_output_write a w

/-- C1 witness: the amended statement evaluated on concrete input. -/
theorem c1_literal_noWrite_effects_witness :
    (build stdinNoWriteArgs sampleWorld).2 =
      BuildResult.code (sampleWorld.transform "const x: number = 1;".data) ∧
    (build stdinNoWriteArgs sampleWorld).1 =
      preEffects stdinNoWriteArgs sampleWorld ∧
    ∀ e ∈ (build stdinNoWriteArgs sampleWorld).1, isOutputWrite e = false :=
  c1_literal_noWrite_effects stdinNoWriteArgs sampleWorld
    ("const x: number = 1;".data) rfl (by decide) (by decide) rfl

/-- C1 counterexample: a write-suppressed literal build does perform
filesystem writes — the temp-config write, and a clear-flag unlink of
a stale top-level output file. -/
theorem c1_counterexample :
    Effect.writeFile (tempCopyPath sampleWorld.now) ∈
      (build stdinNoWriteArgs sampleWorld).1 ∧
    Effect.unlink "dist/stale.js".data ∈
      (build stdinNoWriteArgs sampleWorld).1 := by
  decide

/-- C2 (amended): a literal build missing the companion file name
terminates immediately with non-zero status, but only after the
clear-flag unlinks and the temp-config write have already mutated the
filesystem. -/
theorem c2_missing_companion_exits (a : BuildArgs) (w : World) (s : Str)
    (hs : a.stdin = some s) (hne : s.isEmpty = false)
    (hf : isTruthy a.stdinFile = false) :
    (build a w).2 = BuildResult.exited 1 ∧
    (build a w).1 = preEffects a w := by
  unfold build
  rw [hs]
  simp [hne, hf]

/-- C2 witness: the amended statement evaluated on concrete input. -/
theorem c2_missing_companion_exits_witness :
    (build stdinNoFileArgs sampleWorld).2 = BuildResult.exited 1 ∧
    (build stdinNoFileArgs sampleWorld).1 =
      preEffects stdinNoFileArgs sampleWorld :=
  c2_missing_companion_exits stdinNoFileArgs sampleWorld
    ("const x: number = 1;".data) rfl (by decide) (by decide)

/-- C2 counterexample: the missing-companion termination does not
abort before any mutation — the temp config has been written and a
top-level output file unlinked before the exit. -/
theorem c2_counterexample :
    (build stdinNoFileArgs sampleWorld).2 = BuildResult.exited 1 ∧
    Effect.writeFile (tempCopyPath sampleWorld.now) ∈
      (build stdinNoFileArgs sampleWorld).1 ∧
    Effect.unlink "dist/stale.js".data ∈
      (build stdinNoFileArgs sampleWorld).1 := by
  decide

theorem build_trace_of_not_stdin (a : BuildArgs) (w : World)
    (hs : isTruthy a.stdin = false) :
    (build a w).1 =
      preEffects a w ++
      mainEffects a w (a.bundle || a.standalone) (a.runtimeOnly || a.dev)
        (splittingOf a) := by
  unfold build
  cases hstdin : a.stdin with
  | none => simp
  | some s =>
    have hemp : s.isEmpty = true := by
      unfold isTruthy at hs
      rw [hstdin] at hs
      simpa using hs
    simp [hemp]

/-- C4 (amended): the temp config is written on every build and is
deleted by build end on every non-literal path; literal (stdin) paths
return before the deletion. -/
theorem c4_temp_config_lifecycle (a : BuildArgs) (w : World)
    (hs : isTruthy a.stdin = false) :
    Effect.writeFile (tempCopyPath w.now) ∈ (build a w).1 ∧
    Effect.rmFile (tempCopyPath w.now) ∈ (build a w).1 := by
  rw [build_trace_of_not_stdin a w hs]
  constructor
  · apply List.mem_append_left
    unfold preEffects
    simp
  · apply List.mem_append_right
    unfold mainEffects
    simp

/-- C4 witness: the amended statement evaluated on concrete input. -/
theorem c4_temp_config_lifecycle_witness :
    Effect.writeFile (tempCopyPath sampleWorld.now) ∈
      (build defaultArgs sampleWorld).1 ∧
    Effect.rmFile (tempCopyPath sampleWorld.now) ∈
      (build defaultArgs sampleWorld).1 :=
  c4_temp_config_lifecycle defaultArgs sampleWorld (by decide)

/-- C4 counterexample: on the write-suppressed literal early-return
path the temp config is created but never deleted. -/
theorem c4_counterexample :
    Effect.writeFile (tempCopyPath sampleWorld.now) ∈
      (build stdinNoWriteArgs sampleWorld).1 ∧
    Effect.rmFile (tempCopyPath sampleWorld.now) ∉
      (build stdinNoWriteArgs sampleWorld).1 := by
  decide

/-- C7 (amended): the mode is carried by the explicit `dev` argument,
but the build does mutate process-wide state — its first effect is the
`NODE_ENV` environment write derived from the mode. -/
theorem c7_env_write_first (a : BuildArgs) (w : World) :
    (build a w).1.head? =
      some (Effect.setNodeEnv
        (if a.dev then "development".data else "production".data)) := by
  unfold build preEffects
  cases a.stdin with
  | none => simp
  | some s =>
    by_cases h1 : s.isEmpty <;>
      by_cases h2 : isTruthy a.stdinFile <;>
        by_cases h3 : a.noWrite <;>
          simp [h1, h2, h3]

/-- C7 counterexample: the build writes the environment-style global
mode flag (`NODE_ENV`) on a default invocation. -/
theorem c7_counterexample :
    Effect.setNodeEnv "production".data ∈
      (build defaultArgs sampleWorld).1 := by
  decide

theorem splittingOf_eq_true_iff (a : BuildArgs) :
    splittingOf a = true ↔
      (a.standalone = false ∧ isTruthy a.stdin = false ∧
       a.format = "esm".data ∧ (a.bundle || a.standalone) = true) := by
  unfold splittingOf
  simp [Bool.and_eq_true, and_assoc]

/-- C8: chunk-splitting is enabled only for async-linked (`esm`)
format, non-standalone, non-literal builds; in every configuration
outside that class it is disabled. -/
theorem c8_splitting_gating (a : BuildArgs) :
    (splittingOf a = true →
      a.format = "esm".data ∧ a.standalone = false ∧
      isTruthy a.stdin = false) ∧
    ((a.format ≠ "esm".data ∨ a.standalone = true ∨
      isTruthy a.stdin = true) → splittingOf a = false) := by
  constructor
  · intro h
    have h' := (splittingOf_eq_true_iff a).mp h
    exact ⟨h'.2.2.1, h'.1, h'.2.1⟩
  · intro h
    cases hsp : splittingOf a with
    | false => rfl
    | true =>
      have h' := (splittingOf_eq_true_iff a).mp hsp
      rcases h with h | h | h
      · exact absurd h'.2.2.1 h
      · rw [h'.1] at h; exact absurd h (by simp)
      · rw [h'.2.1] at h; exact absurd h (by simp)

/-- C8 witness: both directions evaluated on concrete inputs — an
esm non-standalone bundle build enables splitting, a literal build
disables it. -/
theorem c8_splitting_gating_witness :
    (({ bundle := true } : BuildArgs).format = "esm".data ∧
     ({ bundle := true } : BuildArgs).standalone = false ∧
     isTruthy ({ bundle := true } : BuildArgs).stdin = false) ∧
    splittingOf stdinNoFileArgs = false :=
  ⟨(c8_splitting_gating { bundle := true }).1 (by decide),
   (c8_splitting_gating stdinNoFileArgs).2 (Or.inr (Or.inr (by decide)))⟩

theorem normalizeSpecs_mem_trace_iff (a : BuildArgs) (w : World)
    (bundle runtimeOnly splitting : Bool) (p : Str) :
    (Effect.normalizeSpecs p ∈
      preEffects a w ++ mainEffects a w bundle runtimeOnly splitting) ↔
    (isTruthy w.noRewrites = false ∧ p = emittedJsPath a w) := by
  unfold preEffects mainEffects clearStage postEffects
  simp [List.mem_append, List.mem_map, List.mem_cons, mem_ite_list,
    Bool.not_eq_true]

/-- C10 (amended): for a non-literal build, the specifier
normalization stage runs if and only if the `NO_REWRITES` environment
variable is unset or set to the empty string (JavaScript-falsy); a
truthy value skips it silently. -/
theorem c10_normalization_gate (a : BuildArgs) (w : World)
    (hs : isTruthy a.stdin = false) :
    (Effect.normalizeSpecs (emittedJsPath a w) ∈ (build a w).1) ↔
      isTruthy w.noRewrites = false := by
  rw [build_trace_of_not_stdin a w hs]
  rw [normalizeSpecs_mem_trace_iff]
  simp

/-- C10 witness: the amended gate evaluated on concrete input. -/
theorem c10_normalization_gate_witness :
    (Effect.normalizeSpecs (emittedJsPath defaultArgs sampleWorld) ∈
      (build defaultArgs sampleWorld).1) ↔
      isTruthy sampleWorld.noRewrites = false :=
  c10_normalization_gate defaultArgs sampleWorld (by decide)

/-- C10 counterexample: with `NO_REWRITES` set to the empty string the
variable is set, yet the normalization stage still runs — refuting
the unset-iff reading. -/
theorem c10_counterexample :
    (Effect.normalizeSpecs
      (emittedJsPath defaultArgs { sampleWorld with noRewrites := some [] })
      ∈ (build defaultArgs { sampleWorld with noRewrites := some [] }).1) ∧
    ({ sampleWorld with noRewrites := some [] } : World).noRewrites ≠
      none := by
  decide

theorem rmTree_mem_trace_iff (a : BuildArgs) (w : World)
    (bundle runtimeOnly splitting : Bool) (p : Str) :
    (Effect.rmTree p ∈
      preEffects a w ++ mainEffects a w bundle runtimeOnly splitting) ↔
    (isAbsolute a.input = false ∧ p = outDirOf w) := by
  unfold preEffects mainEffects clearStage postEffects
  simp [List.mem_append, List.mem_map, List.mem_cons, mem_ite_list,
    Bool.not_eq_true]

theorem rmFile_mem_trace_iff (a : BuildArgs) (w : World)
    (bundle runtimeOnly splitting : Bool) (p : Str) :
    (Effect.rmFile p ∈
      preEffects a w ++ mainEffects a w bundle runtimeOnly splitting) ↔
    ((isAbsolute a.input = true ∧ p = computeOutfile a w) ∨
     p = tempCopyPath w.now) := by
  unfold preEffects mainEffects clearStage postEffects
  simp [List.mem_append, List.mem_map, List.mem_cons, mem_ite_list,
    Bool.not_eq_true]

theorem unlink_mem_trace_iff (a : BuildArgs) (w : World)
    (bundle runtimeOnly splitting : Bool) (p : Str) :
    (Effect.unlink p ∈
      preEffects a w ++ mainEffects a w bundle runtimeOnly splitting) ↔
    (a.clear = true ∧ p ∈ w.distTopFiles) := by
  unfold preEffects mainEffects clearStage postEffects
  simp [List.mem_append, List.mem_map, List.mem_cons, mem_ite_list,
    Bool.not_eq_true]

/-- C3 (amended): a non-literal build with an absolute-path input
deletes that input's computed destination, never removes the output
tree recursively, deletes no other single path than the destination
and the temp config, and unlinks only the top-level output files and
only under the `clear` flag; a non-literal build with a (relative)
root-pattern input removes the whole output tree recursively before
any output write. -/
theorem c3_invalidation_policies (a : BuildArgs) (w : World)
    (hs : isTruthy a.stdin = false) :
    (isAbsolute a.input = true →
      Effect.rmFile (computeOutfile a w) ∈ (build a w).1 ∧
      (∀ p, Effect.rmTree p ∉ (build a w).1) ∧
      (∀ p, Effect.rmFile p ∈ (build a w).1 →
        p = computeOutfile a w ∨ p = tempCopyPath w.now) ∧
      (∀ p, Effect.unlink p ∈ (build a w).1 →
        a.clear = true ∧ p ∈ w.distTopFiles)) ∧
    (isAbsolute a.input = false →
      ∃ pre post, (build a w).1 =
        pre ++ Effect.rmTree (outDirOf w) :: post ∧
        ∀ e ∈ pre, isOutputWrite e = false) := by
  have htr := build_trace_of_not_stdin a w hs
  constructor
  · intro habs
    refine ⟨?_, ?_, ?_, ?_⟩
    · rw [htr, rmFile_mem_trace_iff]
      exact Or.inl ⟨habs, rfl⟩
    · intro p hp
      rw [htr, rmTree_mem_trace_iff] at hp
      rw [habs] at hp
      simp at hp
    · intro p hp
      rw [htr, rmFile_mem_trace_iff] at hp
      rcases hp with ⟨_, hp⟩ | hp
      · exact Or.inl hp
      · exact Or.inr hp
    · intro p hp
      rw [htr, unlink_mem_trace_iff] at hp
      exact hp
  · intro habs
    rw [htr]
    unfold mainEffects clearStage
    rw [habs]
    refine ⟨preEffects a w,
      (compilableTsxFilesOf a w).map
        (fun f => Effect.esbuildTsx f (splittingOf a)) ++
      ([Effect.esbuildBatch (batchEntriesOf a w) (splittingOf a)] ++
       ([Effect.rmFile (tempCopyPath w.now)] ++
        ((nonTsJsInputOf a w).map
          (fun f => Effect.copyFile f (getEmittedFile w f)) ++
         ((if isTruthy w.noRewrites = true then []
           else [Effect.normalizeSpecs (emittedJsPath a w)]) ++
          ([Effect.patchPkgType w.pkgTypeMismatch] ++
           (if (a.runtimeOnly || a.dev) = true then []
            else postEffects a w (a.bundle || a.standalone))))))),
      ?_, preEffects_no_output_write a w⟩
    simp

/-- C3 witness: the amended statement evaluated on a concrete
absolute-path build. -/
theorem c3_invalidation_policies_witness :
    (isAbsolute absInputArgs.input = true →
      Effect.rmFile (computeOutfile absInputArgs sampleWorld) ∈
        (build absInputArgs sampleWorld).1 ∧
      (∀ p, Effect.rmTree p ∉ (build absInputArgs sampleWorld).1) ∧
      (∀ p, Effect.rmFile p ∈ (build absInputArgs sampleWorld).1 →
        p = computeOutfile absInputArgs sampleWorld ∨
        p = tempCopyPath sampleWorld.now) ∧
      (∀ p, Effect.unlink p ∈ (build absInputArgs sampleWorld).1 →
        absInputArgs.clear = true ∧ p ∈ sampleWorld.distTopFiles)) ∧
    (isAbsolute absInputArgs.input = false →
      ∃ pre post, (build absInputArgs sampleWorld).1 =
        pre ++ Effect.rmTree (outDirOf sampleWorld) :: post ∧
        ∀ e ∈ pre, isOutputWrite e = false) :=
  c3_invalidation_policies absInputArgs sampleWorld (by decide)

/-- C3 counterexample: with the `clear` flag at its default, an
absolute-path build also unlinks a stale top-level output file, so it
does not delete only the computed destination. -/
theorem c3_counterexample :
    isAbsolute absInputArgs.input = true ∧
    Effect.unlink "dist/stale.js".data ∈ (build absInputArgs sampleWorld).1 ∧
    "dist/stale.js".data ≠ computeOutfile absInputArgs sampleWorld := by
  decide

theorem getLast?_cons_append_one {α : Type} (y : α) (l : List α)
    (x : α) : (y :: (l ++ [x])).getLast? = some x := by
  rw [← List.cons_append, List.getLast?_append_cons]
  rfl

theorem getLast?_cons_append_two {α : Type} (y : α) (l : List α)
    (n x : α) : (y :: (l ++ [n, x])).getLast? = some x := by
  rw [← List.cons_append, List.getLast?_append_cons]
  rfl

theorem aux_not_mem_of_runtimeOnly (a : BuildArgs) (w : World)
    (bundle splitting : Bool) (e : Effect) (haux : isAuxStage e = true) :
    e ∉ preEffects a w ++ mainEffects a w bundle true splitting := by
  intro h
  unfold preEffects mainEffects clearStage at h
  cases e <;> simp [isAuxStage] at haux <;>
    simp [List.mem_append, List.mem_map, List.mem_cons, mem_ite_list] at h

/-- C9: with runtimeOnly in effect (set directly or forced by
development mode at entry), a non-literal build's trace ends at the
output-package metadata patch, and no style, binary or declaration
stage effect occurs. -/
theorem c9_runtimeOnly_short_circuit (a : BuildArgs) (w : World)
    (hs : isTruthy a.stdin = false)
    (hro : (a.runtimeOnly || a.dev) = true) :
    (build a w).1.getLast? =
      some (Effect.patchPkgType w.pkgTypeMismatch) ∧
    ∀ e ∈ (build a w).1, isAuxStage e = false := by
  have htr := build_trace_of_not_stdin a w hs
  rw [hro] at htr
  constructor
  · rw [htr]
    unfold mainEffects
    by_cases hnr : isTruthy w.noRewrites = true <;>
      simp [hnr, getLast?_cons_append_one, getLast?_cons_append_two]
  · intro e he
    rw [htr] at he
    by_contra hne
    have haux : isAuxStage e = true := by
      cases hx : isAuxStage e
      · exact absurd hx hne
      · rfl
    exact aux_not_mem_of_runtimeOnly a w _ _ e haux he

/-- C9 witness: the statement evaluated on a concrete development
build (dev forces runtimeOnly). -/
theorem c9_runtimeOnly_short_circuit_witness :
    (build { dev := true } sampleWorld).1.getLast? =
      some (Effect.patchPkgType sampleWorld.pkgTypeMismatch) ∧
    ∀ e ∈ (build { dev := true } sampleWorld).1, isAuxStage e = false :=
  c9_runtimeOnly_short_circuit { dev := true } sampleWorld
    (by decide) (by decide)

theorem isRelativeSpec_append (s x : Str)
    (h : isRelativeSpec s = true) :
    isRelativeSpec (s ++ x) = true := by
  unfold isRelativeSpec at h ⊢
  have h' : ("./".data <+: s) ∨ ("../".data <+: s) := by
    rcases Bool.or_eq_true_iff.mp h with h' | h'
    · exact Or.inl (of_decide_eq_true h')
    · exact Or.inr (of_decide_eq_true h')
  rcases h' with h' | h'
  · have : ("./".data) <+: (s ++ x) := h'.trans (List.prefix_append s x)
    simp [this]
  · have : ("../".data) <+: (s ++ x) := h'.trans (List.prefix_append s x)
    simp [this]

theorem hasSuffix_js_append (s x : Str)
    (h : (".js".data) <:+ x) : hasSuffix ".js".data (s ++ x) = true :=
  decide_eq_true (h.trans (List.suffix_append s x))

theorem normalizeSpecifier_idem (v : OutView) (s : Str) :
    normalizeSpecifier v (normalizeSpecifier v s) =
      normalizeSpecifier v s := by
  by_cases h1 : isRelativeSpec s = true
  · by_cases h2 : hasSuffix ".js".data s = true
    · have hs : normalizeSpecifier v s = s := by
        unfold normalizeSpecifier
        simp [h1, h2]
      rw [hs, hs]
    · have h2' : hasSuffix ".js".data s = false := by
        simpa using h2
      by_cases h3 : v.dirWithIndex s = true
      · have hs : normalizeSpecifier v s = s ++ "/index.js".data := by
          unfold normalizeSpecifier
          simp [h1, h2', h3]
        rw [hs]
        have hrel := isRelativeSpec_append s ("/index.js".data) h1
        have hjs := hasSuffix_js_append s ("/index.js".data) (by decide)
        unfold normalizeSpecifier
        simp [hrel, hjs]
      · by_cases h4 : v.fileExists (s ++ ".js".data) = true
        · have hs : normalizeSpecifier v s = s ++ ".js".data := by
            unfold normalizeSpecifier
            simp [h1, h2', h3, h4]
          rw [hs]
          have hrel := isRelativeSpec_append s (".js".data) h1
          have hjs := hasSuffix_js_append s (".js".data) (by decide)
          unfold normalizeSpecifier
          simp [hrel, hjs]
        · have hs : normalizeSpecifier v s = s := by
            unfold normalizeSpecifier
            simp [h1, h2', h3, h4]
          rw [hs, hs]
  · have h1' : isRelativeSpec s = false := by
      simpa using h1
    have hs : normalizeSpecifier v s = s := by
      unfold normalizeSpecifier
      simp [h1']
    rw [hs, hs]

/-- C6: specifier normalization is idempotent — normalizing an
already-normalized emitted file changes no segment and yields
byte-identical rendered output. -/
theorem c6_normalize_idempotent (v : OutView) (file : List Seg) :
    normalizeEmitted v (normalizeEmitted v file) =
      normalizeEmitted v file ∧
    renderEmitted (normalizeEmitted v (normalizeEmitted v file)) =
      renderEmitted (normalizeEmitted v file) := by
  have h : normalizeEmitted v (normalizeEmitted v file) =
      normalizeEmitted v file := by
    unfold normalizeEmitted
    rw [List.map_map]
    apply List.map_congr_left
    intro seg _
    cases seg with
    | text c => rfl
    | spec s =>
      show Seg.spec (normalizeSpecifier v (normalizeSpecifier v s)) =
        Seg.spec (normalizeSpecifier v s)
      rw [normalizeSpecifier_idem]
  exact ⟨h, by rw [h]⟩

theorem afterLast_eq_none_not_mem (t : Char) (l : Str) :
    afterLast t l = none → t ∉ l := by
  induction l with
  | nil => intro _ h; simp at h
  | cons c cs ih =>
    intro h
    unfold afterLast at h
    cases hcs : afterLast t cs with
    | some r => rw [hcs] at h; exact absurd h (by simp)
    | none =>
      rw [hcs] at h
      have hct : ¬ c = t := by
        by_contra hc
        rw [if_pos hc] at h
        exact absurd h (by simp)
      intro hmem
      rcases List.mem_cons.mp hmem with hh | hh
      · exact hct hh.symm
      · exact ih hcs hh

theorem afterLast_eq_some_not_mem (t : Char) (l : Str) :
    ∀ r, afterLast t l = some r → t ∉ r := by
  induction l with
  | nil => intro r h; simp [afterLast] at h
  | cons c cs ih =>
    intro r h
    unfold afterLast at h
    cases hcs : afterLast t cs with
    | some r' =>
      rw [hcs] at h
      have hrr : r' = r := by simpa using h
      subst hrr
      exact ih r' hcs
    | none =>
      rw [hcs] at h
      by_cases hct : c = t
      · rw [if_pos hct] at h
        have hcr : cs = r := by simpa using h
        subst hcr
        exact afterLast_eq_none_not_mem t cs hcs
      · rw [if_neg hct] at h
        exact absurd h (by simp)

theorem extname_shape (p : Str) :
    extname p = [] ∨ ∃ r, extname p = '.' :: r ∧ '.' ∉ r := by
  unfold extname
  cases hb : basenameOf p with
  | nil => exact Or.inl rfl
  | cons c rest =>
    rw [show extFromBase (c :: rest) =
      extFromTail (afterLast '.' rest) from rfl]
    cases hal : afterLast '.' rest with
    | some r =>
      exact Or.inr ⟨r, rfl, afterLast_eq_some_not_mem '.' rest r hal⟩
    | none => exact Or.inl rfl

theorem extname_ne_dts (p : Str) : extname p ≠ ".d.ts".data := by
  rcases extname_shape p with h | ⟨r, h, hr⟩
  · rw [h]; decide
  · rw [h]
    intro hcontra
    have h2 : ('.' :: r : Str) = '.' :: "d.ts".data := by
      rw [hcontra]
    injection h2 with _ h3
    rw [h3] at hr
    exact hr (by decide)

theorem dts_mem_allFiles (a : BuildArgs) (w : World) (f : Str)
    (hmem : f ∈ w.globFiles) : f ∈ allFilesOf a w := by
  unfold allFilesOf
  have hfil : f ∈
      w.globFiles.filter (fun g => !(extname g == ".d.ts".data)) := by
    apply List.mem_filter.mpr
    refine ⟨hmem, ?_⟩
    have := extname_ne_dts f
    simp [this]
  split
  · next hcond =>
    exfalso
    have hemp := ((Bool.and_eq_true _ _).mp hcond).2
    rw [List.isEmpty_iff] at hemp
    rw [hemp] at hfil
    simp at hfil
  · exact hfil

theorem dts_not_mem_batchEntries (a : BuildArgs) (w : World) (f : Str)
    (hdts : hasSuffix ".d.ts".data f = true) :
    f ∉ batchEntriesOf a w := by
  intro h
  unfold batchEntriesOf at h
  have h2 : (!hasSuffix ".d.ts".data f) = true := (List.mem_filter.mp h).2
  rw [hdts] at h2
  exact absurd h2 (by decide)

theorem dts_not_mem_tsxFiles (a : BuildArgs) (w : World) (f : Str)
    (hdts : hasSuffix ".d.ts".data f = true) :
    f ∉ compilableTsxFilesOf a w := by
  intro h
  unfold compilableTsxFilesOf at h
  have h2 : (!hasSuffix ".d.ts".data f) = true := (List.mem_filter.mp h).2
  rw [hdts] at h2
  exact absurd h2 (by decide)

theorem emitDecl_mem_trace (a : BuildArgs) (w : World)
    (hs : isTruthy a.stdin = false)
    (hro : (a.runtimeOnly || a.dev) = false) :
    Effect.emitDeclarations (allFilesOf a w).length ∈ (build a w).1 := by
  rw [build_trace_of_not_stdin a w hs, hro]
  apply List.mem_append_right
  unfold mainEffects postEffects
  simp [List.mem_append, mem_ite_list]

/-- C5: a declaration-dialect (`.d.ts`) file discovered by a
non-literal, non-runtimeOnly build survives discovery (the `extname`
filter is vacuous on two-dot extensions), appears in neither compile
invocation's entry points, and is counted in the file total stated by
the final declaration report. -/
theorem c5_declaration_files (a : BuildArgs) (w : World) (f : Str)
    (hdts : hasSuffix ".d.ts".data f = true)
    (hmem : f ∈ w.globFiles)
    (hs : isTruthy a.stdin = false)
    (hro : a.runtimeOnly = false) (hdev : a.dev = false) :
    f ∈ allFilesOf a w ∧
    f ∉ batchEntriesOf a w ∧
    f ∉ compilableTsxFilesOf a w ∧
    Effect.emitDeclarations (allFilesOf a w).length ∈ (build a w).1 := by
  refine ⟨dts_mem_allFiles a w f hmem,
    dts_not_mem_batchEntries a w f hdts,
    dts_not_mem_tsxFiles a w f hdts,
    emitDecl_mem_trace a w hs ?_⟩
  rw [hro, hdev]
  rfl

/-- C5 witness: the statement evaluated on `src/types.d.ts` in the
sample world. -/
theorem c5_declaration_files_witness :
    "src/types.d.ts".data ∈ allFilesOf defaultArgs sampleWorld ∧
    "src/types.d.ts".data ∉ batchEntriesOf defaultArgs sampleWorld ∧
    "src/types.d.ts".data ∉ compilableTsxFilesOf defaultArgs sampleWorld ∧
    Effect.emitDeclarations (allFilesOf defaultArgs sampleWorld).length ∈
      (build defaultArgs sampleWorld).1 :=
  c5_declaration_files defaultArgs sampleWorld ("src/types.d.ts".data)
    (by decide) (by decide) (by decide) rfl rfl
